import Mathlib

/-!
Shallow embedding of `apps/image_tools/normalize.cpp` (uavmvs).

The program normalizes the pixel values of a single PFM image.  Floats are
modelled as rationals (`ℚ`): every arithmetic operation the claims are about
(comparisons, subtraction, division, the trim-index computation) is stated
over exact arithmetic, mirroring the real-number reading of the spec.

An image (`mve::FloatImage`) is reduced to its flat value sequence, since the
program only ever uses `get_value_amount()` and flat `at(j)` access.  The
loader (`mve::image::load_pfm_file`) is an external collaborator, modelled as
a function `String → Option (List ℚ)` (`none` = load failure).
-/

namespace Normalize

/-- Flat value sequence of an `mve::FloatImage`. -/
abbrev FloatImage := List ℚ

/-- Model of `std::numeric_limits<float>::max()`: `(2 - 2^-23) * 2^127`. -/
def FLOAT_MAX : ℚ := (2 - 1 / 2 ^ 23) * 2 ^ 127

/-- Model of `std::numeric_limits<float>::lowest()`. -/
def FLOAT_LOWEST : ℚ := -FLOAT_MAX

/-- The `Arguments` struct of `normalize.cpp` (after CLI token parsing, which
is plumbing).  `min`/`max` default to `FLOAT_LOWEST`/`FLOAT_MAX`; equality
with the default is how the program detects the absence of an override. -/
structure Arguments where
  clamp : Bool
  in_image : String
  out_image : String
  min : ℚ
  max : ℚ
  eps : ℚ
  no_value : ℚ
  images : List String
deriving DecidableEq

/-- The validation tail of `parse_args` (lines 86-98): range check on
`epsilon`, the `max < min` check on the overrides, and the defaulting of the
source list to the input image. -/
def checkArgs (conf : Arguments) : Except String Arguments :=
  if conf.eps < 0 ∨ 1 < conf.eps then
    Except.error "epsilon is supposed to be in the intervall [0.0, 1.0]"
  else if conf.max < conf.min then
    Except.error "minimum has to be smaller that maximum"
  else if conf.images = [] then
    Except.ok { conf with images := [conf.in_image] }
  else
    Except.ok conf

/-- Key set of the `images_to_load` unordered map (lines 106-112): every name
of `args.images`, plus `args.in_image`.  Duplicate keys collapse. -/
def loadNames (conf : Arguments) : List String :=
  (conf.images ++ [conf.in_image]).dedup

/-- The values of one image that survive the sentinel filter
(`if (value == args.no_value) continue;`, line 139). -/
def validValues (no_value : ℚ) (img : FloatImage) : FloatImage :=
  img.filter (fun v => decide (v ≠ no_value))

/-- The combined sample buffer `values` (lines 131-143): the pooling loop
iterates over the `args.images` LIST (not over the deduplicated load map), in
order, appending each listed image's valid values. -/
def pooledValues (get : String → FloatImage) (no_value : ℚ) :
    List String → FloatImage
  | [] => []
  | n :: ns => validValues no_value (get n) ++ pooledValues get no_value ns

/-- Line 146, `std::size_t c = (values.size() * args.eps) / 2;`: the float
product is truncated toward zero by the `size_t` conversion; for the
nonnegative operands arising here truncation is the floor. -/
def trimC (n : ℕ) (eps : ℚ) : ℕ := (Int.floor ((n : ℚ) * eps / 2)).toNat

/-- Ascending full sort; `std::nth_element(..., std::less)` places at
position `c` the element this sort has at position `c`. -/
def sortAsc (l : List ℚ) : List ℚ := List.insertionSort (· ≤ ·) l

/-- Descending full sort, for `std::nth_element(..., std::greater)`. -/
def sortDesc (l : List ℚ) : List ℚ := List.insertionSort (· ≥ ·) l

/-- The estimated minimum (lines 157-162, override absent): the element at
0-indexed sorted position `c`, ascending.  `none` models the out-of-bounds
dereference that an empty buffer would produce. -/
def estMin (l : List ℚ) (c : ℕ) : Option ℚ := (sortAsc l)[c]?

/-- The estimated maximum (lines 164-169, override absent): the element at
0-indexed sorted position `c`, descending. -/
def estMax (l : List ℚ) (c : ℕ) : Option ℚ := (sortDesc l)[c]?

/-- `*std::minmax_element(...).first` (line 152): the least value of the
buffer; `none` on an empty buffer (dereferencing `end()`). -/
def realMin : List ℚ → Option ℚ
  | [] => none
  | x :: xs => some (xs.foldl min x)

/-- `*std::minmax_element(...).second` (line 153). -/
def realMax : List ℚ → Option ℚ
  | [] => none
  | x :: xs => some (xs.foldl max x)

/-- The per-element body of the normalization loop (lines 178-193).  Returns
the rewritten value and this element's contribution to `num_outliers`.
`delta` is computed once, before the loop (line 171). -/
def applyValue (clamp : Bool) (no_value mn mx delta v : ℚ) : ℚ × ℕ :=
  if v = no_value then (v, 0)
  else if mn ≤ v then
    if v ≤ mx then ((v - mn) / delta, 0)
    else ((if clamp then 1 else no_value), 1)
  else ((if clamp then 0 else no_value), 1)

/-- The whole normalization pass (lines 171-194) over a value sequence:
the rewritten sequence and the final `num_outliers`. -/
def applyRange (clamp : Bool) (no_value mn mx : ℚ) (l : List ℚ) :
    List ℚ × ℕ :=
  let delta := mx - mn
  (l.map (fun v => (applyValue clamp no_value mn mx delta v).1),
   (l.map (fun v => (applyValue clamp no_value mn mx delta v).2)).sum)

/-- Everything `main` reports and persists: the diagnostics printed to
stdout and the image written to `args.out_image`. -/
structure Output where
  out_name : String
  image : FloatImage
  num_valid : ℕ
  real_min : ℚ
  real_max : ℚ
  min : ℚ
  max : ℚ
  num_outliers : ℕ
  clamped : Bool
deriving DecidableEq

/-- The body of `main` after argument validation (lines 104-203).  Every
distinct name of the load map must load, else the program exits
(lines 116-127).  The `getD 0` defaults are never reached in runs the claims
are about: lookups hit loaded images, and on a non-empty buffer the
order-statistic indices are in bounds (an empty buffer makes the C++
dereference undefined). -/
def run (loader : String → Option FloatImage) (conf : Arguments) :
    Except String Output :=
  if (loadNames conf).all (fun n => (loader n).isSome) then
    let get : String → FloatImage := fun n => (loader n).getD []
    let target := get conf.in_image
    let values := pooledValues get conf.no_value conf.images
    let c := trimC values.length conf.eps
    let mn := if conf.min = FLOAT_LOWEST then (estMin values c).getD 0 else conf.min
    let mx := if conf.max = FLOAT_MAX then (estMax values c).getD 0 else conf.max
    let res := applyRange conf.clamp conf.no_value mn mx target
    Except.ok
      { out_name := conf.out_image
        image := res.1
        num_valid := values.length
        real_min := (realMin values).getD 0
        real_max := (realMax values).getD 0
        min := mn
        max := mx
        num_outliers := res.2
        clamped := conf.clamp }
  else
    Except.error "Could not load image"

/-- `main`: validate the configuration (inside `parse_args`, before any
image is touched), then run the pipeline. -/
def main (raw : Arguments) (loader : String → Option FloatImage) :
    Except String Output :=
  match checkArgs raw with
  | Except.error e => Except.error e
  | Except.ok conf => run loader conf

/-! ## Helper lemmas -/

theorem pooledValues_append (get : String → FloatImage) (s : ℚ) (l₁ l₂ : List String) :
    pooledValues get s (l₁ ++ l₂) = pooledValues get s l₁ ++ pooledValues get s l₂ := by
  induction l₁ with
  | nil => simp [pooledValues]
  | cons n ns ih => simp [pooledValues, ih]

theorem mem_pooledValues (get : String → FloatImage) (s : ℚ) (names : List String)
    (n : String) (v : ℚ) (hn : n ∈ names) (hv : v ∈ validValues s (get n)) :
    v ∈ pooledValues get s names := by
  induction names with
  | nil => cases hn
  | cons m ms ih =>
    simp only [pooledValues, List.mem_append]
    rcases List.mem_cons.mp hn with h | h
    · exact Or.inl (h ▸ hv)
    · exact Or.inr (ih h)

theorem sentinel_not_mem_validValues (s : ℚ) (img : FloatImage) :
    s ∉ validValues s img := by
  simp [validValues, List.mem_filter]

theorem sentinel_not_mem_pooledValues (get : String → FloatImage) (s : ℚ)
    (names : List String) : s ∉ pooledValues get s names := by
  induction names with
  | nil => simp [pooledValues]
  | cons n ns ih =>
    simp only [pooledValues, List.mem_append]
    rintro (h | h)
    · exact sentinel_not_mem_validValues s (get n) h
    · exact ih h

theorem applyValue_snd (clamp : Bool) (s mn mx d v : ℚ) :
    (applyValue clamp s mn mx d v).2
      = if v ≠ s ∧ (v < mn ∨ mx < v) then 1 else 0 := by
  unfold applyValue
  by_cases h1 : v = s
  · simp [h1]
  · by_cases h2 : mn ≤ v
    · by_cases h3 : v ≤ mx
      · simp [h1, h2, h3, not_lt.mpr h2, not_lt.mpr h3]
      · simp [h1, h2, h3, not_le.mp h3]
    · simp [h1, h2, not_le.mp h2]

theorem sum_map_ite (p : ℚ → Prop) [DecidablePred p] (l : List ℚ) :
    (l.map (fun v => if p v then (1 : ℕ) else 0)).sum
      = (l.filter (fun v => decide (p v))).length := by
  induction l with
  | nil => rfl
  | cons x xs ih =>
    by_cases h : p x <;> simp [List.filter_cons, h, ih, Nat.add_comm]

theorem applyRange_snd (clamp : Bool) (s mn mx : ℚ) (l : List ℚ) :
    (applyRange clamp s mn mx l).2
      = (l.filter (fun v => decide (v ≠ s ∧ (v < mn ∨ mx < v)))).length := by
  simp only [applyRange, applyValue_snd]
  exact sum_map_ite _ l

/-! ## Claims about the Range Applier (C4, C5, C6) -/

/-- **C4**: after the normalization pass, `num_outliers` equals the number of
non-sentinel input values strictly outside `[min, max]`; each such value is
rewritten to `0` (below `min`) or `1` (above `max`) when `clamp` is set, and
to the sentinel otherwise. -/
theorem outlier_count_and_rewrites (clamp : Bool) (s mn mx : ℚ) (l : List ℚ) :
    (applyRange clamp s mn mx l).2
      = (l.filter (fun v => decide (v ≠ s ∧ (v < mn ∨ mx < v)))).length
    ∧ ∀ i : ℕ, ∀ v : ℚ, l[i]? = some v → v ≠ s → (v < mn ∨ mx < v) →
        (applyRange clamp s mn mx l).1[i]?
          = some (if clamp then (if v < mn then 0 else 1) else s) := by
  refine ⟨applyRange_snd clamp s mn mx l, ?_⟩
  intro i v hget hs hout
  simp only [applyRange, List.getElem?_map, hget, Option.map_some']
  by_cases hvmn : v < mn
  · simp [applyValue, hs, not_le.mpr hvmn, hvmn]
  · have hmx : mx < v := hout.resolve_left hvmn
    simp [applyValue, hs, not_lt.mp hvmn, not_le.mpr hmx, hvmn]

/-- **C4 witness**: concrete instance with `min = 0`, `max = 1`, the single
value `5` above the maximum, `clamp = true`: it becomes `1` and is counted. -/
theorem outlier_count_and_rewrites_witness :
    (applyRange true (-1) 0 1 [5]).1[0]? = some 1
    ∧ (applyRange true (-1) 0 1 [5]).2 = 1 := by
  have h := outlier_count_and_rewrites true (-1) 0 1 [5]
  constructor
  · have h2 := h.2 0 5 rfl (by norm_num) (by norm_num)
    simpa using h2
  · rw [h.1]
    norm_num [List.filter_cons]

/-- **C5**: a non-sentinel value inside `[min, max]`, with positive
`delta = max - min`, is rewritten to exactly `(v - min) / delta`, which lies
in `[0, 1]`. -/
theorem inrange_normalization (clamp : Bool) (s mn mx : ℚ) (l : List ℚ)
    (i : ℕ) (v : ℚ) (hget : l[i]? = some v) (hs : v ≠ s)
    (h1 : mn ≤ v) (h2 : v ≤ mx) (hd : 0 < mx - mn) :
    (applyRange clamp s mn mx l).1[i]? = some ((v - mn) / (mx - mn))
    ∧ 0 ≤ (v - mn) / (mx - mn) ∧ (v - mn) / (mx - mn) ≤ 1 := by
  refine ⟨?_, ?_, ?_⟩
  · simp only [applyRange, List.getElem?_map, hget, Option.map_some']
    simp [applyValue, hs, h1, h2]
  · exact div_nonneg (sub_nonneg.mpr h1) hd.le
  · rw [div_le_one hd]
    exact sub_le_sub_right h2 mn

/-- **C5 witness**: value `1` in range `[0, 2]` becomes `(1 - 0) / 2`. -/
theorem inrange_normalization_witness :
    (applyRange false (-1) 0 2 [1]).1[0]? = some ((1 - 0) / (2 - 0))
    ∧ 0 ≤ ((1 : ℚ) - 0) / (2 - 0) ∧ ((1 : ℚ) - 0) / (2 - 0) ≤ 1 :=
  inrange_normalization false (-1) 0 2 [1] 0 1 rfl (by norm_num)
    (by norm_num) (by norm_num) (by norm_num)

/-- **C6**: a sentinel input value is passed through unchanged, contributes
nothing to the outlier count (removing all sentinels leaves the count
unchanged), and never enters the combined sample buffer. -/
theorem sentinel_untouched (clamp : Bool) (s mn mx : ℚ) (l : List ℚ) (i : ℕ)
    (h : l[i]? = some s) :
    (applyRange clamp s mn mx l).1[i]? = some s
    ∧ (applyRange clamp s mn mx l).2
        = (applyRange clamp s mn mx (l.filter (fun v => decide (v ≠ s)))).2
    ∧ ∀ (get : String → FloatImage) (names : List String),
        s ∉ pooledValues get s names := by
  refine ⟨?_, ?_, ?_⟩
  · simp only [applyRange, List.getElem?_map, h, Option.map_some']
    simp [applyValue]
  · rw [applyRange_snd, applyRange_snd, List.filter_filter]
    apply congrArg
    apply List.filter_congr
    intro v _
    by_cases hv : v = s <;> simp [hv]
  · intro get names
    exact sentinel_not_mem_pooledValues get s names

/-- **C6 witness**: the sentinel `-1` in a one-element grid stays `-1`. -/
theorem sentinel_untouched_witness :
    (applyRange false (-1) 0 1 [-1]).1[0]? = some ((-1 : ℚ))
    ∧ (applyRange false (-1) 0 1 [-1]).2
        = (applyRange false (-1) 0 1
            ([-1].filter (fun v => decide (v ≠ (-1 : ℚ))))).2
    ∧ ∀ (get : String → FloatImage) (names : List String),
        (-1 : ℚ) ∉ pooledValues get (-1) names :=
  sentinel_untouched false (-1) 0 1 [-1] 0 rfl

/-! ## Lemmas about the extrema folds and the sorts -/

theorem foldl_min_le (xs : List ℚ) (x b : ℚ) (hb : b = x ∨ b ∈ xs) :
    xs.foldl min x ≤ b := by
  induction xs generalizing x b with
  | nil =>
    rcases hb with rfl | h
    · exact le_refl b
    · cases h
  | cons c cs ih =>
    rcases hb with rfl | h
    · exact le_trans (ih (min b c) (min b c) (Or.inl rfl)) (min_le_left b c)
    · rcases List.mem_cons.mp h with rfl | h2
      · exact le_trans (ih (min x b) (min x b) (Or.inl rfl)) (min_le_right x b)
      · exact ih (min x c) b (Or.inr h2)

theorem foldl_min_mem (xs : List ℚ) (x : ℚ) :
    xs.foldl min x = x ∨ xs.foldl min x ∈ xs := by
  induction xs generalizing x with
  | nil => exact Or.inl rfl
  | cons c cs ih =>
    rcases ih (min x c) with h | h
    · rcases min_choice x c with h2 | h2
      · exact Or.inl (by rw [List.foldl_cons, h, h2])
      · exact Or.inr (by rw [List.foldl_cons, h, h2]; exact List.mem_cons_self c cs)
    · exact Or.inr (List.mem_cons_of_mem c h)

theorem le_foldl_max (xs : List ℚ) (x b : ℚ) (hb : b = x ∨ b ∈ xs) :
    b ≤ xs.foldl max x := by
  induction xs generalizing x b with
  | nil =>
    rcases hb with rfl | h
    · exact le_refl b
    · cases h
  | cons c cs ih =>
    rcases hb with rfl | h
    · exact le_trans (le_max_left b c) (ih (max b c) (max b c) (Or.inl rfl))
    · rcases List.mem_cons.mp h with rfl | h2
      · exact le_trans (le_max_right x b) (ih (max x b) (max x b) (Or.inl rfl))
      · exact ih (max x c) b (Or.inr h2)

theorem foldl_max_mem (xs : List ℚ) (x : ℚ) :
    xs.foldl max x = x ∨ xs.foldl max x ∈ xs := by
  induction xs generalizing x with
  | nil => exact Or.inl rfl
  | cons c cs ih =>
    rcases ih (max x c) with h | h
    · rcases max_choice x c with h2 | h2
      · exact Or.inl (by rw [List.foldl_cons, h, h2])
      · exact Or.inr (by rw [List.foldl_cons, h, h2]; exact List.mem_cons_self c cs)
    · exact Or.inr (List.mem_cons_of_mem c h)

theorem realMin_spec (l : List ℚ) (m : ℚ) (h : realMin l = some m) :
    m ∈ l ∧ ∀ b ∈ l, m ≤ b := by
  cases l with
  | nil => cases h
  | cons y ys =>
    simp only [realMin, Option.some.injEq] at h
    subst h
    constructor
    · rcases foldl_min_mem ys y with h | h
      · rw [h]; exact List.mem_cons_self y ys
      · exact List.mem_cons_of_mem y h
    · intro b hb
      rcases List.mem_cons.mp hb with rfl | h2
      · exact foldl_min_le ys b b (Or.inl rfl)
      · exact foldl_min_le ys y b (Or.inr h2)

theorem realMax_spec (l : List ℚ) (m : ℚ) (h : realMax l = some m) :
    m ∈ l ∧ ∀ b ∈ l, b ≤ m := by
  cases l with
  | nil => cases h
  | cons y ys =>
    simp only [realMax, Option.some.injEq] at h
    subst h
    constructor
    · rcases foldl_max_mem ys y with h | h
      · rw [h]; exact List.mem_cons_self y ys
      · exact List.mem_cons_of_mem y h
    · intro b hb
      rcases List.mem_cons.mp hb with rfl | h2
      · exact le_foldl_max ys b b (Or.inl rfl)
      · exact le_foldl_max ys y b (Or.inr h2)

theorem length_sortAsc (l : List ℚ) : (sortAsc l).length = l.length :=
  (List.perm_insertionSort (· ≤ ·) l).length_eq

theorem length_sortDesc (l : List ℚ) : (sortDesc l).length = l.length :=
  (List.perm_insertionSort (· ≥ ·) l).length_eq

theorem sortAsc_cons_least (l : List ℚ) (a : ℚ) (t : List ℚ)
    (h : sortAsc l = a :: t) : a ∈ l ∧ ∀ b ∈ l, a ≤ b := by
  have hs := List.sorted_insertionSort (· ≤ ·) l
  have hp := List.perm_insertionSort (· ≤ ·) l
  rw [show List.insertionSort (· ≤ ·) l = sortAsc l from rfl, h] at hs hp
  constructor
  · exact hp.subset (List.mem_cons_self a t)
  · intro b hb
    rcases List.mem_cons.mp (hp.mem_iff.mpr hb) with rfl | hbt
    · exact le_refl b
    · exact (List.sorted_cons.mp hs).1 b hbt

theorem sortDesc_cons_greatest (l : List ℚ) (a : ℚ) (t : List ℚ)
    (h : sortDesc l = a :: t) : a ∈ l ∧ ∀ b ∈ l, b ≤ a := by
  have hs := List.sorted_insertionSort (· ≥ ·) l
  have hp := List.perm_insertionSort (· ≥ ·) l
  rw [show List.insertionSort (· ≥ ·) l = sortDesc l from rfl, h] at hs hp
  constructor
  · exact hp.subset (List.mem_cons_self a t)
  · intro b hb
    rcases List.mem_cons.mp (hp.mem_iff.mpr hb) with rfl | hbt
    · exact le_refl b
    · exact (List.sorted_cons.mp hs).1 b hbt

/-! ## Claims about the Range Estimator (C7, C10) -/

/-- **C7**: with `epsilon = 0` the trim index is `0`, and on a non-empty
buffer both trimmed selections return the exact extrema computed by
`minmax_element`: no trimming occurs. -/
theorem eps_zero_bounds_exact (l : List ℚ) (hne : l ≠ []) :
    trimC l.length 0 = 0
    ∧ estMin l (trimC l.length 0) = realMin l
    ∧ estMax l (trimC l.length 0) = realMax l := by
  have hc : trimC l.length 0 = 0 := by simp [trimC]
  refine ⟨hc, ?_, ?_⟩
  · rw [hc]
    obtain ⟨a, t, hat⟩ : ∃ a t, sortAsc l = a :: t := by
      cases hsa : sortAsc l with
      | nil =>
        exfalso
        have := length_sortAsc l
        rw [hsa] at this
        exact hne (List.length_eq_zero.mp this.symm)
      | cons a t => exact ⟨a, t, rfl⟩
    obtain ⟨m, hm⟩ : ∃ m, realMin l = some m := by
      cases l with
      | nil => exact absurd rfl hne
      | cons y ys => exact ⟨ys.foldl min y, rfl⟩
    obtain ⟨ha_mem, ha_le⟩ := sortAsc_cons_least l a t hat
    obtain ⟨hm_mem, hm_le⟩ := realMin_spec l m hm
    have : a = m := le_antisymm (ha_le m hm_mem) (hm_le a ha_mem)
    rw [estMin, hat, hm, this]
    exact List.getElem?_cons_zero
  · rw [hc]
    obtain ⟨a, t, hat⟩ : ∃ a t, sortDesc l = a :: t := by
      cases hsa : sortDesc l with
      | nil =>
        exfalso
        have := length_sortDesc l
        rw [hsa] at this
        exact hne (List.length_eq_zero.mp this.symm)
      | cons a t => exact ⟨a, t, rfl⟩
    obtain ⟨m, hm⟩ : ∃ m, realMax l = some m := by
      cases l with
      | nil => exact absurd rfl hne
      | cons y ys => exact ⟨ys.foldl max y, rfl⟩
    obtain ⟨ha_mem, ha_ge⟩ := sortDesc_cons_greatest l a t hat
    obtain ⟨hm_mem, hm_ge⟩ := realMax_spec l m hm
    have : a = m := le_antisymm (hm_ge a ha_mem) (ha_ge m hm_mem)
    rw [estMax, hat, hm, this]
    exact List.getElem?_cons_zero

/-- **C7 witness**: on the buffer `[3, 1]` with `epsilon = 0` the estimated
bounds are the exact extrema. -/
theorem eps_zero_bounds_exact_witness :
    trimC [(3 : ℚ), 1].length 0 = 0
    ∧ estMin [(3 : ℚ), 1] (trimC [(3 : ℚ), 1].length 0) = realMin [(3 : ℚ), 1]
    ∧ estMax [(3 : ℚ), 1] (trimC [(3 : ℚ), 1].length 0) = realMax [(3 : ℚ), 1] :=
  eps_zero_bounds_exact [3, 1] (by simp)

/-- **C10**: for `epsilon ∈ [0, 1]` and a non-empty buffer, the trim index
`c = floor(N * epsilon / 2)` is strictly below the buffer length, so the
order-statistic selections and the `minmax_element` dereference are all in
bounds; on an empty buffer the selections are out of bounds. -/
theorem trim_index_in_bounds (l : List ℚ) (eps : ℚ)
    (h0 : 0 ≤ eps) (h1 : eps ≤ 1) (hne : l ≠ []) :
    trimC l.length eps < l.length
    ∧ (estMin l (trimC l.length eps)).isSome
    ∧ (estMax l (trimC l.length eps)).isSome
    ∧ (realMin l).isSome ∧ (realMax l).isSome
    ∧ ∀ c : ℕ, estMin [] c = none ∧ estMax [] c = none := by
  have hN : 0 < l.length := List.length_pos.mpr hne
  have hlt : trimC l.length eps < l.length := by
    have hx : (l.length : ℚ) * eps / 2 < (l.length : ℚ) := by
      have hle : (l.length : ℚ) * eps ≤ (l.length : ℚ) * 1 :=
        mul_le_mul_of_nonneg_left h1 (by positivity)
      have hNpos : (0 : ℚ) < (l.length : ℚ) := by exact_mod_cast hN
      calc (l.length : ℚ) * eps / 2 ≤ (l.length : ℚ) * 1 / 2 := by linarith
        _ = (l.length : ℚ) / 2 := by ring
        _ < (l.length : ℚ) := by linarith
    have hfl : Int.floor ((l.length : ℚ) * eps / 2) < (l.length : ℤ) :=
      Int.floor_lt.mpr (by exact_mod_cast hx)
    have : (Int.floor ((l.length : ℚ) * eps / 2)).toNat ≤ l.length - 1 := by
      rw [Int.toNat_le]
      omega
    unfold trimC
    omega
  refine ⟨hlt, ?_, ?_, ?_, ?_, ?_⟩
  · rw [estMin, List.getElem?_eq_getElem (by rw [length_sortAsc]; exact hlt)]
    rfl
  · rw [estMax, List.getElem?_eq_getElem (by rw [length_sortDesc]; exact hlt)]
    rfl
  · cases l with
    | nil => exact absurd rfl hne
    | cons y ys => rfl
  · cases l with
    | nil => exact absurd rfl hne
    | cons y ys => rfl
  · intro c
    constructor <;> rfl

/-- **C10 witness**: the singleton buffer `[1]` with `epsilon = 1` keeps every
access in bounds. -/
theorem trim_index_in_bounds_witness :
    trimC [(1 : ℚ)].length 1 < [(1 : ℚ)].length
    ∧ (estMin [(1 : ℚ)] (trimC [(1 : ℚ)].length 1)).isSome
    ∧ (estMax [(1 : ℚ)] (trimC [(1 : ℚ)].length 1)).isSome
    ∧ (realMin [(1 : ℚ)]).isSome ∧ (realMax [(1 : ℚ)]).isSome
    ∧ ∀ c : ℕ, estMin [] c = none ∧ estMax [] c = none :=
  trim_index_in_bounds [1] 1 (by norm_num) (by norm_num) (by simp)

/-! ## Configuration errors (C8) -/

/-- **C8**: a configuration with `epsilon` outside `[0, 1]`, or with explicit
overrides satisfying `max < min`, is rejected by `parse_args` before anything
is loaded: `main` returns the configuration error for every loader, so no
grid is read, pooled, mutated, or saved. -/
theorem config_error_before_io (raw : Arguments)
    (loader : String → Option FloatImage)
    (h : raw.eps < 0 ∨ 1 < raw.eps ∨ raw.max < raw.min) :
    main raw loader
      = Except.error (if raw.eps < 0 ∨ 1 < raw.eps
          then "epsilon is supposed to be in the intervall [0.0, 1.0]"
          else "minimum has to be smaller that maximum") := by
  unfold main checkArgs
  by_cases h1 : raw.eps < 0 ∨ 1 < raw.eps
  · simp [h1]
  · have h2 : raw.max < raw.min := by tauto
    simp [h1, h2]

/-- Spec scenario D: a configuration with `epsilon = 1.5`. -/
def rawEps : Arguments :=
  { clamp := false, in_image := "in", out_image := "out", min := FLOAT_LOWEST,
    max := FLOAT_MAX, eps := 3 / 2, no_value := -1, images := [] }

/-- A loader under which every image would load fine: the error cannot come
from (or depend on) I/O. -/
def okLoader : String → Option FloatImage := fun _ => some [42]

/-- **C8 witness**: `epsilon = 1.5` yields the configuration error even
though every image would load. -/
theorem config_error_before_io_witness :
    main rawEps okLoader
      = Except.error "epsilon is supposed to be in the intervall [0.0, 1.0]" := by
  have h := config_error_before_io rawEps okLoader
    (Or.inr (Or.inl (by norm_num [rawEps])))
  rw [h, if_pos (Or.inr (by norm_num [rawEps]))]

/-! ## Negative delta after trimming (C9) -/

/-- The buffer `[0, 10]` with `epsilon = 1`: a legal configuration whose
trimmed selections cross over. -/
def confNeg : Arguments :=
  { clamp := false, in_image := "A", out_image := "O", min := FLOAT_LOWEST,
    max := FLOAT_MAX, eps := 1, no_value := -1, images := ["A"] }

def loaderNeg : String → Option FloatImage :=
  fun n => if n = "A" then some [0, 10] else none

/-- **C9**: a combined sample buffer (`[0, 10]`) and `epsilon = 1 ∈ [0, 1]`
for which the two independent trimmed selections give estimated
`min = 10 > 0 = max`; the configuration passes validation (only explicit
overrides are checked) and the program still completes with these crossed
bounds — no corrective check is applied. -/
theorem negative_delta_possible :
    checkArgs confNeg = Except.ok confNeg
    ∧ run loaderNeg confNeg = Except.ok
        { out_name := "O", image := [-1, -1], num_valid := 2, real_min := 0,
          real_max := 10, min := 10, max := 0, num_outliers := 2,
          clamped := false }
    ∧ ∃ out : Output, run loaderNeg confNeg = Except.ok out
        ∧ out.max < out.min := by
  have hrun : run loaderNeg confNeg = Except.ok
      { out_name := "O", image := [-1, -1], num_valid := 2, real_min := 0,
        real_max := 10, min := 10, max := 0, num_outliers := 2,
        clamped := false } := by
    norm_num [run, loaderNeg, confNeg, loadNames, pooledValues, validValues,
      trimC, estMin, estMax, sortAsc, sortDesc, List.insertionSort,
      List.orderedInsert, realMin, realMax, applyRange, applyValue,
      List.filter_cons, FLOAT_LOWEST, FLOAT_MAX]
  refine ⟨?_, hrun, ⟨_, hrun, by norm_num⟩⟩
  norm_num [checkArgs, confNeg, FLOAT_LOWEST, FLOAT_MAX]

/-! ## Membership of the target in the pool (C1) -/

/-- Explicit source list `["A"]` that does not contain the target `"T"`. -/
def confT : Arguments :=
  { clamp := false, in_image := "T", out_image := "O", min := FLOAT_LOWEST,
    max := FLOAT_MAX, eps := 0, no_value := -1, images := ["A"] }

def loaderT : String → Option FloatImage :=
  fun n => if n = "T" then some [7] else if n = "A" then some [5] else none

/-- **C1 counterexample**: with the valid configuration `confT` (source list
`["A"]`, target `"T"`), the target's valid value `7` is NOT in the combined
sample buffer: the pooling loop iterates over the source list only, so the
target is not implicitly a member of the pool. -/
theorem target_not_pooled_counterexample :
    checkArgs confT = Except.ok confT
    ∧ confT.in_image ∉ confT.images
    ∧ (7 : ℚ) ∈ validValues confT.no_value ((loaderT confT.in_image).getD [])
    ∧ pooledValues (fun n => (loaderT n).getD []) confT.no_value confT.images
        = [5]
    ∧ (7 : ℚ)
        ∉ pooledValues (fun n => (loaderT n).getD []) confT.no_value
            confT.images := by
  have hp : pooledValues (fun n => (loaderT n).getD []) confT.no_value
      confT.images = [5] := by
    simp [pooledValues, validValues, confT, loaderT, List.filter_cons]
    norm_num
  refine ⟨?_, ?_, ?_, hp, ?_⟩
  · norm_num [checkArgs, confT, FLOAT_LOWEST, FLOAT_MAX]
  · simp [confT]
  · simp [validValues, confT, loaderT, List.filter_cons]
    norm_num
  · rw [hp]
    norm_num

/-- **C1 amended**: the target is always a member of the LOAD set (it is
loaded even when absent from the source list), but its valid values enter
the combined sample buffer only when its name occurs in the source list;
when no explicit list is supplied, `parse_args` defaults the list to exactly
the target name. -/
theorem target_pooled_only_if_listed (conf : Arguments)
    (get : String → FloatImage) (raw conf2 : Arguments) :
    conf.in_image ∈ loadNames conf
    ∧ (conf.in_image ∈ conf.images →
        ∀ v ∈ validValues conf.no_value (get conf.in_image),
          v ∈ pooledValues get conf.no_value conf.images)
    ∧ (raw.images = [] → checkArgs raw = Except.ok conf2 →
        conf2.images = [raw.in_image]) := by
  refine ⟨?_, ?_, ?_⟩
  · simp [loadNames, List.mem_dedup]
  · intro h v hv
    exact mem_pooledValues get conf.no_value conf.images conf.in_image v h hv
  · intro h1 h2
    rw [checkArgs] at h2
    split_ifs at h2
    cases h2
    rfl

/-- Configuration with an empty source list, and its defaulted form. -/
def rawDef : Arguments :=
  { clamp := false, in_image := "T", out_image := "O", min := FLOAT_LOWEST,
    max := FLOAT_MAX, eps := 0, no_value := -1, images := [] }

def confDef : Arguments := { rawDef with images := ["T"] }

/-- **C1 amended witness**: with the defaulted configuration (source list
`["T"]` = the target), the target is in the load set, its valid value `7`
is pooled, and the defaulting indeed produced `["T"]`. -/
theorem target_pooled_only_if_listed_witness :
    confDef.in_image ∈ loadNames confDef
    ∧ (7 : ℚ) ∈ pooledValues (fun n => (loaderT n).getD []) confDef.no_value
        confDef.images
    ∧ confDef.images = [rawDef.in_image] := by
  obtain ⟨w1, w2, w3⟩ := target_pooled_only_if_listed confDef
    (fun n => (loaderT n).getD []) rawDef confDef
  refine ⟨w1, ?_, w3 rfl ?_⟩
  · refine w2 (by simp [confDef, rawDef]) 7 ?_
    simp [validValues, confDef, rawDef, loaderT, List.filter_cons]
    norm_num
  · norm_num [checkArgs, rawDef, confDef, FLOAT_LOWEST, FLOAT_MAX]

/-! ## Duplicate source names (C2) -/

def confOnce : Arguments :=
  { clamp := false, in_image := "A", out_image := "O", min := FLOAT_LOWEST,
    max := FLOAT_MAX, eps := 0, no_value := -1, images := ["A"] }

def confDup : Arguments := { confOnce with images := ["A", "A"] }

def loaderDup : String → Option FloatImage :=
  fun n => if n = "A" then some [1, 2] else none

/-- **C2 counterexample**: listing source `"A"` twice pools its valid values
twice: the combined sample buffer is `[1, 2, 1, 2]` instead of `[1, 2]`
(different even as a multiset), and the reported valid-value count is `4`
instead of `2`. -/
theorem duplicate_source_counterexample :
    pooledValues (fun n => (loaderDup n).getD []) (-1) ["A", "A"]
      = [1, 2, 1, 2]
    ∧ pooledValues (fun n => (loaderDup n).getD []) (-1) ["A"] = [1, 2]
    ∧ (run loaderDup confDup).map Output.num_valid = Except.ok 4
    ∧ (run loaderDup confOnce).map Output.num_valid = Except.ok 2
    ∧ ¬ ((pooledValues (fun n => (loaderDup n).getD []) (-1) ["A", "A"]
          : Multiset ℚ)
        = (pooledValues (fun n => (loaderDup n).getD []) (-1) ["A"]
          : Multiset ℚ)) := by
  have hp2 : pooledValues (fun n => (loaderDup n).getD []) (-1) ["A", "A"]
      = [1, 2, 1, 2] := by
    norm_num [pooledValues, validValues, loaderDup, List.filter_cons]
  have hp1 : pooledValues (fun n => (loaderDup n).getD []) (-1) ["A"]
      = [1, 2] := by
    norm_num [pooledValues, validValues, loaderDup, List.filter_cons]
  refine ⟨hp2, hp1, ?_, ?_, ?_⟩
  · have hrun : run loaderDup confDup = Except.ok
        { out_name := "O", image := [0, 1], num_valid := 4, real_min := 1,
          real_max := 2, min := 1, max := 2, num_outliers := 0,
          clamped := false } := by
      norm_num [run, loaderDup, confDup, confOnce, loadNames, pooledValues,
        validValues, trimC, estMin, estMax, sortAsc, sortDesc,
        List.insertionSort, List.orderedInsert, realMin, realMax, applyRange,
        applyValue, List.filter_cons, FLOAT_LOWEST, FLOAT_MAX]
    rw [hrun]
    rfl
  · have hrun : run loaderDup confOnce = Except.ok
        { out_name := "O", image := [0, 1], num_valid := 2, real_min := 1,
          real_max := 2, min := 1, max := 2, num_outliers := 0,
          clamped := false } := by
      norm_num [run, loaderDup, confOnce, loadNames, pooledValues,
        validValues, trimC, estMin, estMax, sortAsc, sortDesc,
        List.insertionSort, List.orderedInsert, realMin, realMax, applyRange,
        applyValue, List.filter_cons, FLOAT_LOWEST, FLOAT_MAX]
    rw [hrun]
    rfl
  · rw [hp2, hp1]
    intro h
    have := congrArg Multiset.card h
    simp at this

/-- **C2 amended**: the LOAD set collapses duplicates (each distinct grid is
loaded once), but pooling iterates over the source list: appending a name
that is already listed leaves the load set unchanged while appending that
source's valid values to the buffer once more, growing the valid-value
count accordingly. -/
theorem duplicate_source_pools_twice (conf : Arguments)
    (get : String → FloatImage) (n : String) (hn : n ∈ conf.images) :
    (∀ x, x ∈ loadNames { conf with images := conf.images ++ [n] }
        ↔ x ∈ loadNames conf)
    ∧ pooledValues get conf.no_value (conf.images ++ [n])
        = pooledValues get conf.no_value conf.images
          ++ validValues conf.no_value (get n)
    ∧ (pooledValues get conf.no_value (conf.images ++ [n])).length
        = (pooledValues get conf.no_value conf.images).length
          + (validValues conf.no_value (get n)).length := by
  have hp : pooledValues get conf.no_value (conf.images ++ [n])
      = pooledValues get conf.no_value conf.images
        ++ validValues conf.no_value (get n) := by
    rw [pooledValues_append]
    simp [pooledValues]
  refine ⟨?_, hp, by rw [hp, List.length_append]⟩
  intro x
  simp only [loadNames, List.mem_dedup, List.mem_append, List.mem_singleton]
  constructor
  · rintro ((h | rfl) | h)
    · exact Or.inl h
    · exact Or.inl hn
    · exact Or.inr h
  · rintro (h | h)
    · exact Or.inl (Or.inl h)
    · exact Or.inr h

/-! ## Concrete scenario B (C3): values 1..100, epsilon = 0.1 -/

/-- The pooled buffer `{1, 2, ..., 100}` of spec scenarios A and B. -/
def values100 : List ℚ := (List.range 100).map (fun i : ℕ => (i : ℚ) + 1)

theorem values100_sorted : List.Sorted (· ≤ ·) values100 := by
  rw [values100, List.Sorted, List.pairwise_map]
  refine (List.pairwise_lt_range 100).imp ?_
  intro i j hij
  have : (i : ℚ) < (j : ℚ) := by exact_mod_cast hij
  linarith

theorem sortAsc_values100 : sortAsc values100 = values100 :=
  values100_sorted.insertionSort_eq

theorem sortDesc_values100 : sortDesc values100 = values100.reverse := by
  refine List.eq_of_perm_of_sorted
    ((List.perm_insertionSort (· ≥ ·) values100).trans
      (List.reverse_perm values100).symm)
    (List.sorted_insertionSort (· ≥ ·) values100) ?_
  rw [List.Sorted, List.pairwise_reverse]
  exact values100_sorted

/-- Pointwise evaluation of the normalization body on the value `i + 1`
with bounds `[6, 95]` and `delta = 89`. -/
theorem applyValue100 (clamp : Bool) (i : ℕ) :
    applyValue clamp (-1) 6 95 89 ((i : ℚ) + 1)
      = (if i < 5 then (if clamp then 0 else -1)
          else if 95 ≤ i then (if clamp then 1 else -1)
          else ((i : ℚ) - 5) / 89,
        if i < 5 ∨ 95 ≤ i then 1 else 0) := by
  have h0 : (0 : ℚ) ≤ (i : ℚ) := Nat.cast_nonneg i
  have hne : ¬ ((i : ℚ) + 1 = -1) := by intro h; linarith
  rcases lt_or_ge i 5 with h5 | h5
  · have h5q : (i : ℚ) < 5 := by exact_mod_cast h5
    have hlt : ¬ ((6 : ℚ) ≤ (i : ℚ) + 1) := by intro h; linarith
    have h95 : ¬ (95 ≤ i) := by omega
    simp [applyValue, hne, hlt, h5, h95]
  · have h5q : (5 : ℚ) ≤ (i : ℚ) := by exact_mod_cast h5
    have hge : (6 : ℚ) ≤ (i : ℚ) + 1 := by linarith
    have hn5 : ¬ (i < 5) := by omega
    rcases lt_or_ge i 95 with h95 | h95
    · have h94 : i ≤ 94 := by omega
      have h94q : (i : ℚ) ≤ 94 := by exact_mod_cast h94
      have hle : ((i : ℚ) + 1) ≤ 95 := by linarith
      have hn95 : ¬ (95 ≤ i) := by omega
      have hval : ((i : ℚ) + 1 - 6) / 89 = ((i : ℚ) - 5) / 89 := by ring_nf
      simp [applyValue, hne, hge, hle, hn5, hn95, hval]
    · have h95q : (95 : ℚ) ≤ (i : ℚ) := by exact_mod_cast h95
      have hnle : ¬ (((i : ℚ) + 1) ≤ 95) := by intro h; linarith
      simp [applyValue, hne, hge, hnle, hn5, h95]

/-- **C3**: on the pooled values `{1, ..., 100}` (sentinel `-1` absent) with
`epsilon = 0.1`: the trim count is `5`, the estimated minimum is the 6th
smallest value `6`, the estimated maximum is the 6th largest value `95`,
exactly the `10` values below `6` or above `95` are counted as outliers, and
the pass rewrites them to the sentinel when `clamp = false`, and to `0`
(below the minimum) or `1` (above the maximum) when `clamp = true`; in-range
values become `(v - 6) / 89`. -/
theorem scenario_b_concrete :
    values100.length = 100
    ∧ validValues (-1) values100 = values100
    ∧ trimC values100.length (1 / 10) = 5
    ∧ estMin values100 5 = some 6
    ∧ estMax values100 5 = some 95
    ∧ (applyRange false (-1) 6 95 values100).2 = 10
    ∧ (applyRange true (-1) 6 95 values100).2 = 10
    ∧ (applyRange false (-1) 6 95 values100).1
        = (List.range 100).map (fun i : ℕ =>
            if i < 5 then (-1 : ℚ) else if 95 ≤ i then -1
            else ((i : ℚ) - 5) / 89)
    ∧ (applyRange true (-1) 6 95 values100).1
        = (List.range 100).map (fun i : ℕ =>
            if i < 5 then (0 : ℚ) else if 95 ≤ i then 1
            else ((i : ℚ) - 5) / 89) := by
  have hlen : values100.length = 100 := by simp [values100]
  have hvalid : validValues (-1) values100 = values100 := by
    rw [validValues, List.filter_eq_self]
    intro v hv
    simp only [values100, List.mem_map, List.mem_range] at hv
    obtain ⟨i, _, rfl⟩ := hv
    have h0 : (0 : ℚ) ≤ (i : ℚ) := Nat.cast_nonneg i
    simp only [decide_eq_true_eq]
    intro h
    linarith
  have hcount : ∀ clamp : Bool, (applyRange clamp (-1) 6 95 values100).2 = 10 := by
    intro clamp
    rw [applyRange_snd, values100, List.filter_map, List.length_map]
    have hcong : ∀ i ∈ List.range 100,
        ((fun v => decide (v ≠ (-1 : ℚ) ∧ (v < 6 ∨ 95 < v)))
            ∘ (fun i : ℕ => (i : ℚ) + 1)) i
          = decide (i < 5 ∨ 95 ≤ i) := by
      intro i _
      have h0 : (0 : ℚ) ≤ (i : ℚ) := Nat.cast_nonneg i
      simp only [Function.comp_apply]
      rw [decide_eq_decide]
      constructor
      · rintro ⟨_, h | h⟩
        · left
          exact_mod_cast (by linarith : (i : ℚ) < 5)
        · right
          have h95 : (95 : ℕ) < i + 1 := by
            exact_mod_cast (by linarith : (95 : ℚ) < (i : ℚ) + 1)
          omega
      · intro h
        refine ⟨by intro hh; linarith, ?_⟩
        rcases h with h | h
        · left
          have : (i : ℚ) < 5 := by exact_mod_cast h
          linarith
        · right
          have : (95 : ℚ) ≤ (i : ℚ) := by exact_mod_cast h
          linarith
    rw [List.filter_congr hcong]
    decide
  have happly : ∀ clamp : Bool, (applyRange clamp (-1) 6 95 values100).1
      = (List.range 100).map
          (fun i : ℕ => (applyValue clamp (-1) 6 95 89 ((i : ℚ) + 1)).1) := by
    intro clamp
    have h89 : (95 : ℚ) - 6 = 89 := by norm_num
    simp only [applyRange, h89, values100, List.map_map]
    rfl
  refine ⟨hlen, hvalid, ?_, ?_, ?_, hcount false, hcount true, ?_, ?_⟩
  · rw [hlen, trimC]
    have h5 : ((100 : ℕ) : ℚ) * (1 / 10) / 2 = 5 := by norm_num
    rw [h5, show Int.floor (5 : ℚ) = 5 by norm_num]
    decide
  · rw [estMin, sortAsc_values100, values100, List.getElem?_map,
      List.getElem?_range (by norm_num)]
    norm_num
  · rw [estMax, sortDesc_values100,
      List.getElem?_reverse (by rw [hlen]; norm_num), hlen]
    have h94 : (100 : ℕ) - 1 - 5 = 94 := by norm_num
    rw [h94, values100, List.getElem?_map,
      List.getElem?_range (by norm_num)]
    norm_num
  · rw [happly false]
    refine List.map_congr_left ?_
    intro i _
    rw [applyValue100]
    simp
  · rw [happly true]
    refine List.map_congr_left ?_
    intro i _
    rw [applyValue100]
    simp

/-- **C2 amended witness**: appending the duplicate `"A"` to `confOnce`
appends `[1, 2]` to the buffer again. -/
theorem duplicate_source_pools_twice_witness :
    pooledValues (fun n => (loaderDup n).getD []) confOnce.no_value
        (confOnce.images ++ ["A"])
      = pooledValues (fun n => (loaderDup n).getD []) confOnce.no_value
          confOnce.images
        ++ validValues confOnce.no_value
            ((fun n => (loaderDup n).getD []) "A") :=
  (duplicate_source_pools_twice confOnce (fun n => (loaderDup n).getD []) "A"
    (by simp [confOnce])).2.1

end Normalize
